import Mathlib

/-!
Verification of the Frame Tracker store (src/app1.py).

The backing store is a spreadsheet worksheet, modelled as its occupied grid:
a list of rows, each row a list of cell strings (row 1 of the sheet is
element 0 of the list, as returned by gspread get_all_values).  Frames are
the triples (sheet row number, name, status) that the listing routine
get_sheet_data_and_hash produces.  Fuzzy search, status filter and
pagination are the pure row transformations inlined in render_table_page.
-/

namespace FrameTracker

/-- A listed frame: (1-based sheet row number, frame name, status),
exactly the tuples `(i + 2, frame_name, status)` built by
get_sheet_data_and_hash. -/
abbrev Frame := Nat × String × String

/-- Python `s.lower()`, modelled over the character list for the ASCII
range (which covers the data in use). -/
def strLower (s : String) : String := String.mk (s.data.map Char.toLower)

/-- Python `s.strip()`: remove leading and trailing whitespace. -/
def strTrim (s : String) : String :=
  String.mk (((s.data.dropWhile Char.isWhitespace).reverse.dropWhile
    Char.isWhitespace).reverse)

/-- Python `h.strip().lower()` applied to a header cell. -/
def normHeader (h : String) : String := strLower (strTrim h)

/-- The Python dict comprehension `{h: i for i, h in enumerate(headers)}`
looked up at `key`: the index of the LAST occurrence of `key` among the
normalized headers (later duplicates overwrite earlier ones), `none` if
absent. -/
def headerIdxOf (hdr : List String) (key : String) : Option Nat :=
  ((hdr.map normHeader).enum).foldl (fun acc p => if p.2 = key then some p.1 else acc) none

/-- One iteration of the row loop of get_sheet_data_and_hash, without the
row number: `some (frame_name, status)` when the row is kept,
`none` when it is skipped.  A row is kept exactly when both the
"frame name" and the "status" header exist, both cells are present in the
row (an out-of-range index raises and the `except` skips the row), and both
stripped cells are non-empty. -/
def rowData (hdr : List String) (row : List String) : Option (String × String) :=
  match headerIdxOf hdr "frame name", headerIdxOf hdr "status" with
  | some fi, some si =>
    match row.get? fi, row.get? si with
    | some a, some b =>
      if strTrim a ≠ "" ∧ strTrim b ≠ "" then some (strTrim a, strTrim b) else none
    | _, _ => none
  | _, _ => none

/-- The row loop of get_sheet_data_and_hash: processed rows of `rows`,
where the row at list position 0 carries sheet row number `i` (the code
starts at `i + 2 = 2`). -/
def framesAux (hdr : List String) : Nat → List (List String) → List Frame
  | _, [] => []
  | i, r :: rs =>
    match rowData hdr r with
    | some p => (i, p.1, p.2) :: framesAux hdr (i + 1) rs
    | none => framesAux hdr (i + 1) rs

/-- `processed_rows` of get_sheet_data_and_hash: the listed frames of a
raw grid (empty when the grid has fewer than two rows). -/
def get_sheet_data (values : List (List String)) : List Frame :=
  match values with
  | [] => []
  | hdr :: rows => if rows.isEmpty then [] else framesAux hdr 2 rows

/-- The `skipped` counter of get_sheet_data_and_hash (the number reported
by the warning banner when positive). -/
def get_skipped (values : List (List String)) : Nat :=
  match values with
  | [] => 0
  | hdr :: rows =>
    if rows.isEmpty then 0 else (rows.filter (fun r => (rowData hdr r).isNone)).length

/-- get_sheet_data_and_hash itself.  The code computes
`data_hash = hashlib.md5(str(time.time()).encode()).hexdigest()`:
`md5hex` abstracts the md5 hex digest and `now` is `str(time.time())`
at the moment of the fetch.  Note the hash is applied to `now`, not to
`values`. -/
def get_sheet_data_and_hash (md5hex : String → String) (now : String)
    (values : List (List String)) : List Frame × String :=
  match values with
  | [] => ([], "")
  | hdr :: rows => if rows.isEmpty then ([], "") else (framesAux hdr 2 rows, md5hex now)

/-- An ASCII single-quote character, used in the user-facing messages of
add_frame. -/
def quoteChar : String := String.singleton (Char.ofNat 39)

/-- The message `f"Frame '{frame_name}' already exists."` -/
def addDupMsg (n : String) : String :=
  "Frame " ++ quoteChar ++ n ++ quoteChar ++ " already exists."

/-- The message `f"Frame '{frame_name}' added."` -/
def addOkMsg (n : String) : String :=
  "Frame " ++ quoteChar ++ n ++ quoteChar ++ " added."

/-- `existing_names` of add_frame: the raw (unstripped) first cell of every
non-empty stored data row, malformed rows included. -/
def rawNames (values : List (List String)) : List String :=
  (values.drop 1).filterMap List.head?

/-- add_frame: returns the `(success, message)` pair together with the grid
after the call (`ws.append_row` appends one row after the last data row).
The duplicate check is `frame_name in existing_names` — exact, untrimmed
comparison against raw first-column cells. -/
def add_frame (values : List (List String)) (frame_name status : String) :
    (Bool × String) × List (List String) :=
  if frame_name ∈ rawNames values then
    ((false, addDupMsg frame_name), values)
  else
    ((true, addOkMsg frame_name), values ++ [[frame_name, status]])

/-- update_frame: `ws.update(f"A{row_index}:B{row_index}", [[new_name, new_status]])`
writes cells A and B of the given 1-based grid row unconditionally, leaving
other cells of that row and all other rows alone; a row position beyond the
current data region is written into the (empty) grid there.  No existence
check is performed and nothing is returned. -/
def update_frame (values : List (List String)) (row_index : Nat)
    (new_name new_status : String) : List (List String) :=
  if row_index ≤ values.length then
    values.set (row_index - 1) ([new_name, new_status] ++ (values.getD (row_index - 1) []).drop 2)
  else
    values ++ List.replicate (row_index - values.length - 1) [] ++ [[new_name, new_status]]

/-- delete_frame: `ws.delete_rows(row_index)` removes the 1-based grid row,
shifting every later row up by one; a position past the data region removes
an empty grid row (no change to the data).  No existence check is performed
and nothing is returned. -/
def delete_frame (values : List (List String)) (row_index : Nat) :
    List (List String) :=
  values.eraseIdx (row_index - 1)

/-- export_to_excel: the written file, as (path, written table).  `now` is
`datetime.now().strftime` of the timestamp format.  pandas writes the
column header `data[0]` and then the rows `data[1:]`, i.e. the raw grid
verbatim; on an empty grid `data[0]` raises (modelled as `none`). -/
def export_to_excel (table_name now : String) (values : List (List String)) :
    Option (String × List (List String)) :=
  match values with
  | [] => none
  | hdr :: rows =>
    some ("exports/" ++ table_name ++ "_" ++ now ++ ".xlsx", hdr :: rows)

/-- Inner loop for `lcsLen`: `f` is the LCS function of the tail of the
first string against arbitrary second strings. -/
def lcsStep (f : List Char → Nat) (a : Char) : List Char → Nat
  | [] => 0
  | b :: bs => if a = b then f bs + 1 else max (lcsStep f a bs) (f (b :: bs))

/-- Length of a longest common subsequence of two character lists
(structural nested recursion, so it evaluates by kernel reduction). -/
def lcsLen : List Char → List Char → Nat
  | [], _ => 0
  | a :: as, bs => lcsStep (lcsLen as) a bs

lemma lcsLen_nil_right (s : List Char) : lcsLen s [] = 0 := by
  cases s <;> rfl

lemma lcsLen_cons_cons (a b : Char) (as bs : List Char) :
    lcsLen (a :: as) (b :: bs)
      = if a = b then lcsLen as bs + 1
        else max (lcsLen (a :: as) bs) (lcsLen as (b :: bs)) := rfl

/-- rapidfuzz `fuzz.ratio`, modelled from the external library (the code
imports `from rapidfuzz import fuzz`): the normalized InDel similarity
`100 * (1 - dist / (len1 + len2))` where the InDel distance is
`len1 + len2 - 2 * lcs`, i.e. `200 * lcs / (len1 + len2)`; two empty
strings score 100.  The library returns a double; scores are modelled as
exact rationals. -/
def fuzzScore (s1 s2 : List Char) : ℚ :=
  if s1.length + s2.length = 0 then 100
  else (200 * lcsLen s1 s2 : ℚ) / ((s1.length : ℚ) + (s2.length : ℚ))

/-- The candidate alignments of a needle of length `m` against the haystack
`lo` (for `1 ≤ m ≤ lo.length`): every prefix of length `1..m-1`, every
contiguous window of length `m`, and every suffix of length `m-1..1` —
the windows `lo[max(i,0) : min(i+m, n)]` for `i ∈ [-(m-1), n-1]` scanned
by rapidfuzz partial-ratio. -/
def alignWindows (lo : List Char) (m : Nat) : List (List Char) :=
  ((List.range (m - 1)).map (fun j => lo.take (j + 1)))
    ++ ((List.range (lo.length + 1 - m)).map (fun i => (lo.drop i).take m))
    ++ ((List.range (m - 1)).map (fun j => lo.drop (lo.length + 1 + j - m)))

/-- rapidfuzz `fuzz.partial_ratio`, modelled from the external library:
the maximum of `fuzzScore` between the shorter string and each candidate
alignment window of the longer string (0 when one side is empty, 100 when
both are). -/
def partFuzzScore (s1 s2 : List Char) : ℚ :=
  if s1.length = 0 ∧ s2.length = 0 then 100
  else if s1.length = 0 ∨ s2.length = 0 then 0
  else if s1.length ≤ s2.length then
    ((alignWindows s2 s1.length).map (fun w => fuzzScore s1 w)).foldr max 0
  else
    ((alignWindows s1 s2.length).map (fun w => fuzzScore s2 w)).foldr max 0

/-- The search filter of render_table_page:
`if search_query: rows = [r for r in rows if fuzz.partial_ratio(search_query.lower(), r[1].lower()) > 70]`
(an empty query is falsy, so no filter is applied). -/
def searchRows (search_query : String) (rows : List Frame) : List Frame :=
  if search_query = "" then rows
  else rows.filter (fun r =>
    decide (70 < partFuzzScore (strLower search_query).data (strLower r.2.1).data))

/-- The status filter of render_table_page:
`if status_filter != "All": rows = [r for r in rows if r[2] == status_filter]`. -/
def filterByStatus (status_filter : String) (rows : List Frame) : List Frame :=
  if status_filter = "All" then rows
  else rows.filter (fun r => r.2.2 = status_filter)

/-- `total_pages = max((len(rows) - 1) // items_per_page + 1, 1)` with
Python floor division (so `count = 0` gives `(-1) // size + 1 = 0`,
clamped to 1). -/
def total_pages (count size : Nat) : Int :=
  max (Int.fdiv ((count : Int) - 1) (size : Int) + 1) 1

/-- The page bound enforced by the page number widget:
`min_value=1, max_value=total_pages` clamps the requested page into
`[1, total_pages]`. -/
def clampPage (tp p : Int) : Int := max 1 (min p tp)

/-- The `current_page` actually used: the requested page forced into the
widget bounds `[1, total_pages]`. -/
def current_page (count size : Nat) (p : Int) : Nat :=
  (clampPage (total_pages count size) p).toNat

/-- The pagination of render_table_page:
`rows[(current_page - 1) * items_per_page : current_page * items_per_page]`
at the clamped 1-based page, as the Python slice `drop a, take (b - a)`. -/
def paginateRows (size : Nat) (p : Int) (rows : List Frame) : List Frame :=
  (rows.drop ((current_page rows.length size p - 1) * size)).take
    (current_page rows.length size p * size
      - (current_page rows.length size p - 1) * size)

/-- How one listed frame's row number changes when grid row `k` is deleted:
frames above row `k` keep their number, the frame on row `k` disappears,
frames below move up by one. -/
def shiftAfterDelete (k : Nat) (f : Frame) : Option Frame :=
  if f.1 < k then some f else if f.1 = k then none else some (f.1 - 1, f.2)

/-! ### Structure of the listing -/

lemma get_sheet_data_cons (hdr : List String) (rows : List (List String)) :
    get_sheet_data (hdr :: rows) = framesAux hdr 2 rows := by
  cases rows with
  | nil => simp [get_sheet_data, framesAux]
  | cons r rs => simp [get_sheet_data]

lemma framesAux_append (hdr : List String) (as bs : List (List String)) (i : Nat) :
    framesAux hdr i (as ++ bs)
      = framesAux hdr i as ++ framesAux hdr (i + as.length) bs := by
  induction as generalizing i with
  | nil => simp [framesAux]
  | cons a as ih =>
    cases h : rowData hdr a with
    | some p => simp [framesAux, h, ih, Nat.add_assoc, Nat.add_comm 1 as.length]
    | none => simp [framesAux, h, ih, Nat.add_assoc, Nat.add_comm 1 as.length]

lemma framesAux_shift (hdr : List String) (rs : List (List String)) (i : Nat) :
    framesAux hdr (i + 1) rs
      = (framesAux hdr i rs).map (fun f => (f.1 + 1, f.2)) := by
  induction rs generalizing i with
  | nil => simp [framesAux]
  | cons r rs ih =>
    cases h : rowData hdr r with
    | some p => simp [framesAux, h, ih]
    | none => simp [framesAux, h, ih]

lemma mem_framesAux_bounds (hdr : List String) (rs : List (List String)) (i : Nat)
    (f : Frame) (hf : f ∈ framesAux hdr i rs) : i ≤ f.1 ∧ f.1 < i + rs.length := by
  induction rs generalizing i with
  | nil => simp [framesAux] at hf
  | cons r rs ih =>
    cases h : rowData hdr r with
    | some p =>
      rw [framesAux, h] at hf
      rcases List.mem_cons.mp hf with h1 | h1
      · subst h1
        constructor
        · exact Nat.le_refl _
        · show i < i + (r :: rs).length
          simp only [List.length_cons]
          omega
      · have := ih (i + 1) h1; simp at this ⊢; omega
    | none =>
      rw [framesAux, h] at hf
      have := ih (i + 1) hf; simp at this ⊢; omega

lemma mem_framesAux_iff (hdr : List String) (rs : List (List String)) (i j : Nat)
    (n s : String) :
    (j, n, s) ∈ framesAux hdr i rs
      ↔ i ≤ j ∧ ∃ r, rs.get? (j - i) = some r ∧ rowData hdr r = some (n, s) := by
  induction rs generalizing i with
  | nil => simp [framesAux]
  | cons r rs ih =>
    cases h : rowData hdr r with
    | some p =>
      rw [framesAux, h]
      constructor
      · intro hf
        rcases List.mem_cons.mp hf with h1 | h1
        · rw [Prod.mk.injEq, Prod.mk.injEq] at h1
          obtain ⟨rfl, rfl, rfl⟩ := h1
          exact ⟨Nat.le_refl _, r, by simp, by simpa using h⟩
        · rcases (ih (i + 1)).mp h1 with ⟨hij, r', hr', hd⟩
          refine ⟨by omega, r', ?_, hd⟩
          have : j - i = (j - (i + 1)) + 1 := by omega
          rw [this, List.get?_cons_succ]; exact hr'
      · rintro ⟨hij, r', hr', hd⟩
        rcases Nat.eq_or_lt_of_le hij with rfl | hlt
        · simp only [Nat.sub_self, List.get?_cons_zero, Option.some.injEq] at hr'
          subst hr'
          rw [h] at hd
          rcases Option.some.injEq .. ▸ hd with rfl
          exact List.mem_cons_self _ _
        · refine List.mem_cons_of_mem _ ((ih (i + 1)).mpr ⟨hlt, r', ?_, hd⟩)
          have : j - i = (j - (i + 1)) + 1 := by omega
          rw [this, List.get?_cons_succ] at hr'; exact hr'
    | none =>
      rw [framesAux, h]
      rw [ih (i + 1)]
      constructor
      · rintro ⟨hij, r', hr', hd⟩
        refine ⟨by omega, r', ?_, hd⟩
        have : j - i = (j - (i + 1)) + 1 := by omega
        rw [this, List.get?_cons_succ]; exact hr'
      · rintro ⟨hij, r', hr', hd⟩
        rcases Nat.eq_or_lt_of_le hij with rfl | hlt
        · simp at hr'; subst hr'
          rw [hd] at h; cases h
        · refine ⟨hlt, r', ?_, hd⟩
          have : j - i = (j - (i + 1)) + 1 := by omega
          rw [this, List.get?_cons_succ] at hr'; exact hr'

lemma framesAux_pairwise (hdr : List String) (rs : List (List String)) (i : Nat) :
    List.Pairwise (fun f g : Frame => f.1 < g.1) (framesAux hdr i rs) := by
  induction rs generalizing i with
  | nil => simp [framesAux]
  | cons r rs ih =>
    cases h : rowData hdr r with
    | some p =>
      rw [framesAux, h]
      refine List.Pairwise.cons (fun g hg => ?_) (ih (i + 1))
      have := mem_framesAux_bounds hdr rs (i + 1) g hg
      simp; omega
    | none => rw [framesAux, h]; exact ih (i + 1)

lemma length_framesAux_add_skipped (hdr : List String) (rs : List (List String))
    (i : Nat) :
    (framesAux hdr i rs).length
      + (rs.filter (fun r => (rowData hdr r).isNone)).length = rs.length := by
  induction rs generalizing i with
  | nil => simp [framesAux]
  | cons r rs ih =>
    have hih := ih (i + 1)
    cases h : rowData hdr r with
    | some p =>
      rw [framesAux, h]
      simp [List.filter_cons, h]
      omega
    | none =>
      rw [framesAux, h]
      simp [List.filter_cons, h]
      omega

lemma filterMap_eq_self {α : Type} (g : α → Option α) (L : List α)
    (h : ∀ x ∈ L, g x = some x) : L.filterMap g = L := by
  induction L with
  | nil => simp
  | cons a l ih =>
    rw [List.filterMap_cons, h a (List.mem_cons_self a l)]
    rw [ih (fun x hx => h x (List.mem_cons_of_mem a hx))]

lemma filterMap_eq_map {α β : Type} (g : α → Option β) (m : α → β) (L : List α)
    (h : ∀ x ∈ L, g x = some (m x)) : L.filterMap g = L.map m := by
  induction L with
  | nil => simp
  | cons a l ih =>
    rw [List.filterMap_cons, h a (List.mem_cons_self a l), List.map_cons]
    rw [ih (fun x hx => h x (List.mem_cons_of_mem a hx))]

lemma framesAux_eraseIdx (hdr : List String) (rs : List (List String)) :
    ∀ (i j : Nat), j < rs.length →
      framesAux hdr i (rs.eraseIdx j)
        = (framesAux hdr i rs).filterMap (shiftAfterDelete (i + j)) := by
  induction rs with
  | nil => intro i j hj; simp at hj
  | cons r rs ih =>
    intro i j hj
    cases j with
    | zero =>
      rw [List.eraseIdx_cons_zero]
      cases h : rowData hdr r with
      | some p =>
        rw [framesAux, h, List.filterMap_cons]
        have hhead : shiftAfterDelete (i + 0) (i, p.1, p.2) = none := by
          simp [shiftAfterDelete]
        rw [hhead]
        rw [framesAux_shift hdr rs i]
        rw [filterMap_eq_map _ (fun f : Frame => (f.1 - 1, f.2)) _ (fun f hf => ?_)]
        · rw [List.map_map]
          have : ((fun f : Frame => (f.1 - 1, f.2)) ∘ fun f : Frame => (f.1 + 1, f.2))
              = id := by
            funext f; simp
          rw [this, List.map_id]
        · rcases List.mem_map.mp hf with ⟨g, hg, rfl⟩
          have hb := mem_framesAux_bounds hdr rs i g hg
          simp only [shiftAfterDelete, Nat.add_zero]
          rw [if_neg (by omega), if_neg (by omega)]
      | none =>
        rw [framesAux, h]
        rw [framesAux_shift hdr rs i]
        rw [filterMap_eq_map _ (fun f : Frame => (f.1 - 1, f.2)) _ (fun f hf => ?_)]
        · rw [List.map_map]
          have : ((fun f : Frame => (f.1 - 1, f.2)) ∘ fun f : Frame => (f.1 + 1, f.2))
              = id := by
            funext f; simp
          rw [this, List.map_id]
        · rcases List.mem_map.mp hf with ⟨g, hg, rfl⟩
          have hb := mem_framesAux_bounds hdr rs i g hg
          simp only [shiftAfterDelete, Nat.add_zero]
          rw [if_neg (by omega), if_neg (by omega)]
    | succ j =>
      rw [List.eraseIdx_cons_succ]
      have hj' : j < rs.length := by simpa using hj
      cases h : rowData hdr r with
      | some p =>
        rw [framesAux, h, framesAux, h, List.filterMap_cons]
        have hhead : shiftAfterDelete (i + (j + 1)) (i, p.1, p.2)
            = some (i, p.1, p.2) := by
          simp [shiftAfterDelete]
        rw [hhead, ih (i + 1) j hj']
        have : i + 1 + j = i + (j + 1) := by omega
        rw [this]
      | none =>
        rw [framesAux, h, framesAux, h, ih (i + 1) j hj']
        have : i + 1 + j = i + (j + 1) := by omega
        rw [this]

lemma eraseIdx_of_length_le {α : Type} (l : List α) (i : Nat) (h : l.length ≤ i) :
    l.eraseIdx i = l := by
  induction l generalizing i with
  | nil => simp
  | cons a l ih =>
    cases i with
    | zero => simp at h
    | succ i => rw [List.eraseIdx_cons_succ, ih i (by simpa using h)]

/-- Deleting grid row `k ≥ 2` transforms the listing by `shiftAfterDelete k`:
frames above keep their row number, the frame on row `k` (if listed)
disappears, frames below move up one row. -/
lemma get_sheet_data_delete (values : List (List String)) (k : Nat) (hk : 2 ≤ k) :
    get_sheet_data (delete_frame values k)
      = (get_sheet_data values).filterMap (shiftAfterDelete k) := by
  cases values with
  | nil => simp [delete_frame, get_sheet_data, List.eraseIdx]
  | cons hdr rows =>
    have hk1 : k - 1 = (k - 2) + 1 := by omega
    rw [delete_frame, hk1, List.eraseIdx_cons_succ, get_sheet_data_cons,
      get_sheet_data_cons]
    rcases Nat.lt_or_ge (k - 2) rows.length with hlt | hge
    · rw [framesAux_eraseIdx hdr rows 2 (k - 2) hlt]
      have : 2 + (k - 2) = k := by omega
      rw [this]
    · rw [eraseIdx_of_length_le rows (k - 2) hge]
      refine (filterMap_eq_self _ _ (fun f hf => ?_)).symm
      have hb := mem_framesAux_bounds hdr rows 2 f hf
      simp only [shiftAfterDelete]
      rw [if_pos (by omega)]

/-! ### Fuzzy scoring -/

lemma lcsLen_le (s1 s2 : List Char) :
    lcsLen s1 s2 ≤ s1.length ∧ lcsLen s1 s2 ≤ s2.length := by
  induction s1 generalizing s2 with
  | nil => simp [lcsLen]
  | cons a as ih =>
    induction s2 with
    | nil => simp [lcsLen_nil_right]
    | cons b bs ih2 =>
      rw [lcsLen_cons_cons]
      split
      · have h := ih bs
        simp only [List.length_cons]
        omega
      · have h1 := ih2
        have h2 := ih (b :: bs)
        simp only [List.length_cons] at h1 h2 ⊢
        omega

lemma lcsLen_self (s : List Char) : lcsLen s s = s.length := by
  induction s with
  | nil => simp [lcsLen]
  | cons a l ih => rw [lcsLen_cons_cons, if_pos rfl, ih]; simp

lemma fuzzScore_nonneg (s1 s2 : List Char) : 0 ≤ fuzzScore s1 s2 := by
  rw [fuzzScore]
  split
  · norm_num
  · next h =>
    apply div_nonneg
    · positivity
    · positivity

lemma fuzzScore_le_100 (s1 s2 : List Char) : fuzzScore s1 s2 ≤ 100 := by
  rw [fuzzScore]
  split
  · norm_num
  · next h =>
    have hpos : (0 : ℚ) < (s1.length : ℚ) + (s2.length : ℚ) := by
      have : 0 < s1.length + s2.length := Nat.pos_of_ne_zero h
      exact_mod_cast this
    rw [div_le_iff₀ hpos]
    have hle := lcsLen_le s1 s2
    have h1 : (lcsLen s1 s2 : ℚ) ≤ (s1.length : ℚ) := by exact_mod_cast hle.1
    have h2 : (lcsLen s1 s2 : ℚ) ≤ (s2.length : ℚ) := by exact_mod_cast hle.2
    linarith

lemma fuzzScore_self (s : List Char) : fuzzScore s s = 100 := by
  rw [fuzzScore]
  split
  · rfl
  · next h =>
    rw [lcsLen_self]
    have hpos : (0 : ℚ) < (s.length : ℚ) + (s.length : ℚ) := by
      have : 0 < s.length + s.length := Nat.pos_of_ne_zero h
      exact_mod_cast this
    field_simp
    ring

lemma foldr_max_nonneg (L : List ℚ) : 0 ≤ L.foldr max 0 := by
  induction L with
  | nil => simp
  | cons a l ih => exact le_trans ih (by simp [List.foldr_cons, le_max_right])

lemma foldr_max_le (L : List ℚ) (c : ℚ) (hc : 0 ≤ c) (h : ∀ x ∈ L, x ≤ c) :
    L.foldr max 0 ≤ c := by
  induction L with
  | nil => simpa
  | cons a l ih =>
    simp only [List.foldr_cons, max_le_iff]
    exact ⟨h a (List.mem_cons_self a l),
      ih (fun x hx => h x (List.mem_cons_of_mem a hx))⟩

lemma le_foldr_max (L : List ℚ) (x : ℚ) (hx : x ∈ L) : x ≤ L.foldr max 0 := by
  induction L with
  | nil => simp at hx
  | cons a l ih =>
    rcases List.mem_cons.mp hx with rfl | hx'
    · simp [List.foldr_cons, le_max_left]
    · exact le_trans (ih hx') (by simp [List.foldr_cons, le_max_right])

lemma partFuzzScore_nonneg (s1 s2 : List Char) : 0 ≤ partFuzzScore s1 s2 := by
  rw [partFuzzScore]
  split
  · norm_num
  · split
    · norm_num
    · split
      · exact foldr_max_nonneg _
      · exact foldr_max_nonneg _

lemma partFuzzScore_le_100 (s1 s2 : List Char) : partFuzzScore s1 s2 ≤ 100 := by
  rw [partFuzzScore]
  split
  · norm_num
  · split
    · norm_num
    · split
      · refine foldr_max_le _ _ (by norm_num) (fun x hx => ?_)
        rcases List.mem_map.mp hx with ⟨w, _, rfl⟩
        exact fuzzScore_le_100 _ _
      · refine foldr_max_le _ _ (by norm_num) (fun x hx => ?_)
        rcases List.mem_map.mp hx with ⟨w, _, rfl⟩
        exact fuzzScore_le_100 _ _

/-- An exact contiguous occurrence of the (non-empty) needle inside the
haystack is one of the scanned alignment windows. -/
lemma needle_mem_alignWindows (q pre post : List Char) (hq : q ≠ []) :
    q ∈ alignWindows (pre ++ q ++ post) q.length := by
  have hlen : (pre ++ q ++ post).length = pre.length + q.length + post.length := by
    simp only [List.length_append]
  have hmem : pre.length ∈ List.range ((pre ++ q ++ post).length + 1 - q.length) := by
    rw [List.mem_range, hlen]
    have : 0 < q.length := List.length_pos.mpr hq
    omega
  refine List.mem_append.mpr (Or.inl (List.mem_append.mpr (Or.inr ?_)))
  refine List.mem_map.mpr ⟨pre.length, hmem, ?_⟩
  rw [List.append_assoc, List.drop_left, List.take_left]

/-- Exact substring containment scores exactly 100. -/
lemma partFuzzScore_substring (q pre post : List Char) (hq : q ≠ []) :
    partFuzzScore q (pre ++ q ++ post) = 100 := by
  have hql : 0 < q.length := List.length_pos.mpr hq
  have hle : q.length ≤ (pre ++ q ++ post).length := by simp; omega
  have hwin := needle_mem_alignWindows q pre post hq
  have hscore : (100 : ℚ) ∈ ((alignWindows (pre ++ q ++ post) q.length).map
      (fun w => fuzzScore q w)) := by
    refine List.mem_map.mpr ⟨q, hwin, ?_⟩
    rw [fuzzScore_self]
  have hge := le_foldr_max _ _ hscore
  have hlehi := partFuzzScore_le_100 q (pre ++ q ++ post)
  rw [partFuzzScore] at hlehi ⊢
  rw [if_neg (by push_neg; intro h; omega), if_neg (by push_neg; omega),
    if_pos hle] at hlehi ⊢
  exact le_antisymm hlehi hge

lemma lcsLen_eq_zero (s1 s2 : List Char) (h : ∀ a ∈ s1, a ∉ s2) :
    lcsLen s1 s2 = 0 := by
  induction s1 generalizing s2 with
  | nil => rfl
  | cons a as ih =>
    induction s2 with
    | nil => exact lcsLen_nil_right _
    | cons b bs ih2 =>
      rw [lcsLen_cons_cons]
      rw [if_neg (fun hab : a = b => (h a (List.mem_cons_self a as))
        (hab ▸ List.mem_cons_self b bs))]
      rw [ih2 (fun x hx => fun hxb => h x hx (List.mem_cons_of_mem b hxb)),
        ih (b :: bs) (fun x hx => h x (List.mem_cons_of_mem a hx))]
      simp

lemma sublist_of_mem_alignWindows (lo : List Char) (m : Nat) (w : List Char)
    (hw : w ∈ alignWindows lo m) : w.Sublist lo := by
  rw [alignWindows] at hw
  rcases List.mem_append.mp hw with hw1 | hw3
  · rcases List.mem_append.mp hw1 with hw1 | hw2
    · rcases List.mem_map.mp hw1 with ⟨j, _, rfl⟩
      exact List.take_sublist _ _
    · rcases List.mem_map.mp hw2 with ⟨i, _, rfl⟩
      exact (List.take_sublist _ _).trans (List.drop_sublist _ _)
  · rcases List.mem_map.mp hw3 with ⟨j, _, rfl⟩
    exact List.drop_sublist _ _

lemma fuzzScore_eq_zero (s1 s2 : List Char) (hne : s1.length + s2.length ≠ 0)
    (hl : lcsLen s1 s2 = 0) : fuzzScore s1 s2 = 0 := by
  rw [fuzzScore, if_neg hne, hl]
  simp

lemma foldr_max_eq_zero (L : List ℚ) (h : ∀ x ∈ L, x = 0) :
    L.foldr max 0 = 0 :=
  le_antisymm (foldr_max_le L 0 le_rfl (fun x hx => (h x hx).le))
    (foldr_max_nonneg L)

/-- A needle and haystack with no character in common score 0. -/
lemma partFuzzScore_eq_zero (s1 s2 : List Char) (h1 : s1 ≠ []) (h2 : s2 ≠ [])
    (h : ∀ a ∈ s1, a ∉ s2) : partFuzzScore s1 s2 = 0 := by
  have hl1 : s1.length ≠ 0 := fun hc => h1 (List.length_eq_zero.mp hc)
  have hl2 : s2.length ≠ 0 := fun hc => h2 (List.length_eq_zero.mp hc)
  rw [partFuzzScore, if_neg (fun hc => hl1 hc.1), if_neg (fun hc => hc.elim hl1 hl2)]
  split
  · refine foldr_max_eq_zero _ (fun x hx => ?_)
    rcases List.mem_map.mp hx with ⟨w, hw, rfl⟩
    refine fuzzScore_eq_zero _ _ (by omega) ?_
    refine lcsLen_eq_zero _ _ (fun a ha => fun haw => ?_)
    exact h a ha ((sublist_of_mem_alignWindows s2 s1.length w hw).mem haw)
  · refine foldr_max_eq_zero _ (fun x hx => ?_)
    rcases List.mem_map.mp hx with ⟨w, hw, rfl⟩
    refine fuzzScore_eq_zero _ _ (by omega) ?_
    refine lcsLen_eq_zero _ _ (fun a ha => fun haw => ?_)
    have ha1 : a ∉ s1 := fun hc => h a hc ha
    exact ha1 ((sublist_of_mem_alignWindows s1 s2.length w hw).mem haw)

/-! ### Pagination -/

lemma fdiv_neg_one (s : Nat) (hs : 0 < s) : Int.fdiv (-1) (s : Int) = -1 := by
  cases s with
  | zero => exact absurd hs (by simp)
  | succ k =>
    have h : Int.fdiv (Int.negSucc 0) (Int.ofNat (k + 1))
        = Int.negSucc (0 / (k + 1)) := rfl
    rw [show ((-1 : Int)) = Int.negSucc 0 from rfl,
      show (((k + 1 : Nat)) : Int) = Int.ofNat (k + 1) from rfl, h, Nat.zero_div]

/-- `max((count - 1) // size + 1, 1)` with Python floor division equals the
ceiling `⌈count / size⌉`, with a minimum of one page. -/
lemma total_pages_eq (count size : Nat) (hs : 0 < size) :
    total_pages count size = ((max 1 ((count + size - 1) / size) : Nat) : Int) := by
  rw [total_pages]
  cases count with
  | zero =>
    rw [show (((0 : Nat) : Int) - 1) = -1 by norm_num, fdiv_neg_one size hs]
    have h2 : (0 + size - 1) / size = 0 := Nat.div_eq_of_lt (by omega)
    rw [h2]
    norm_num
  | succ c =>
    rw [show (((c + 1 : Nat) : Int) - 1) = ((c : Nat) : Int) by push_cast; ring]
    rw [show Int.fdiv ((c : Nat) : Int) ((size : Nat) : Int) = ((c / size : Nat) : Int)
      from (Int.ofNat_fdiv c size).symm]
    have h2 : (c + 1 + size - 1) / size = c / size + 1 := by
      rw [show c + 1 + size - 1 = c + size by omega, Nat.add_div_right _ hs]
    rw [h2]
    have hx : (0 : Int) ≤ ((c / size : Nat) : Int) := Int.ofNat_nonneg _
    rw [max_eq_left (by linarith : (1 : Int) ≤ ((c / size : Nat) : Int) + 1)]
    rw [max_eq_right (Nat.le_add_left 1 (c / size))]
    push_cast
    ring

lemma one_le_total_pages (count size : Nat) : 1 ≤ total_pages count size :=
  le_max_right _ _

lemma clampPage_bounds (count size : Nat) (p : Int) :
    1 ≤ clampPage (total_pages count size) p
      ∧ clampPage (total_pages count size) p ≤ total_pages count size :=
  ⟨le_max_left _ _, max_le (one_le_total_pages count size) (min_le_right _ _)⟩

lemma one_le_current_page (count size : Nat) (p : Int) :
    1 ≤ current_page count size p := by
  have h1 : 1 ≤ clampPage (total_pages count size) p :=
    (clampPage_bounds count size p).1
  rw [current_page]
  omega

lemma paginateRows_eq (size : Nat) (p : Int) (rows : List Frame) :
    paginateRows size p rows
      = (rows.drop ((current_page rows.length size p - 1) * size)).take size := by
  have h2 : 1 ≤ current_page rows.length size p := one_le_current_page _ _ _
  obtain ⟨m, hm⟩ : ∃ m, current_page rows.length size p = m + 1 :=
    ⟨_, (Nat.succ_pred_eq_of_pos h2).symm⟩
  rw [paginateRows, hm, Nat.add_sub_cancel]
  have hms : (m + 1) * size = m * size + size := by ring
  rw [show (m + 1) * size - m * size = size by omega]

lemma paginateRows_sublist (size : Nat) (p : Int) (rows : List Frame) :
    (paginateRows size p rows).Sublist rows := by
  rw [paginateRows]
  exact (List.take_sublist _ _).trans (List.drop_sublist _ _)

lemma searchRows_sublist (q : String) (rows : List Frame) :
    (searchRows q rows).Sublist rows := by
  rw [searchRows]
  split
  · exact List.Sublist.refl rows
  · exact List.filter_sublist rows

lemma filterByStatus_sublist (st : String) (rows : List Frame) :
    (filterByStatus st rows).Sublist rows := by
  rw [filterByStatus]
  split
  · exact List.Sublist.refl rows
  · exact List.filter_sublist rows

lemma get_skipped_cons (hdr : List String) (rows : List (List String)) :
    get_skipped (hdr :: rows)
      = (rows.filter (fun r => (rowData hdr r).isNone)).length := by
  cases rows with
  | nil => simp [get_skipped]
  | cons r rs => simp [get_skipped]

/-! ### Claim theorems -/

/-- C4: for every frame list, page size > 0 and requested page, pagination
returns exactly the elements of the half-open index range
`[(page - 1) * size, page * size)` clipped to the list (element `j` of the
page is element `(page - 1) * size + j` of the list, and nothing past the
size), never more than `size` items; the page count is
`ceil(count / size)` with a minimum of one page; and the page used is the
requested page clamped into `[1, page count]`. -/
theorem C4_paginate_correct (rows : List Frame) (size : Nat) (p : Int)
    (hs : 0 < size) :
    total_pages rows.length size
        = ((max 1 ((rows.length + size - 1) / size) : Nat) : Int)
    ∧ 1 ≤ clampPage (total_pages rows.length size) p
    ∧ clampPage (total_pages rows.length size) p ≤ total_pages rows.length size
    ∧ (paginateRows size p rows).length ≤ size
    ∧ ∀ j : Nat,
        (paginateRows size p rows)[j]?
          = if j < size then
              rows[(current_page rows.length size p - 1) * size + j]?
            else none := by
  refine ⟨total_pages_eq rows.length size hs, (clampPage_bounds rows.length size p).1,
    (clampPage_bounds rows.length size p).2, ?_, ?_⟩
  · rw [paginateRows_eq size p rows, List.length_take]
    exact min_le_left _ _
  · intro j
    rw [paginateRows_eq size p rows, List.getElem?_take, List.getElem?_drop]

theorem C4_paginate_correct_witness :
    (0 : Nat) < 10
    ∧ (paginateRows 10 99 ((List.range 23).map (fun i => (i, "n", "s")))).length ≤ 10 :=
  ⟨by norm_num,
    (C4_paginate_correct ((List.range 23).map (fun i => (i, "n", "s"))) 10 99
      (by norm_num)).2.2.2.1⟩

/-- C5: with a non-empty query the search keeps exactly the frames whose
lowercased name scores strictly above 70 against the lowercased query under
the partial-ratio fuzzy similarity, in input order (a sublist); an empty
query leaves the row list unchanged; and the modelled partial-ratio scorer
lies in `[0, 100]` and gives exactly 100 to every exact substring
containment. -/
theorem C5_search_fuzzy (query : String) (rows : List Frame) :
    searchRows "" rows = rows
    ∧ (searchRows query rows).Sublist rows
    ∧ (query ≠ "" → ∀ f : Frame, f ∈ searchRows query rows
        ↔ f ∈ rows ∧ 70 < partFuzzScore (strLower query).data (strLower f.2.1).data)
    ∧ (∀ s1 s2 : List Char, 0 ≤ partFuzzScore s1 s2 ∧ partFuzzScore s1 s2 ≤ 100)
    ∧ (∀ q pre post : List Char, q ≠ []
        → partFuzzScore q (pre ++ q ++ post) = 100) := by
  refine ⟨by rw [searchRows, if_pos rfl], searchRows_sublist query rows, ?_,
    fun s1 s2 => ⟨partFuzzScore_nonneg s1 s2, partFuzzScore_le_100 s1 s2⟩,
    fun q pre post hq => partFuzzScore_substring q pre post hq⟩
  intro hq f
  rw [searchRows, if_neg hq, List.mem_filter]
  simp only [decide_eq_true_eq]

theorem C5_search_fuzzy_witness :
    (2, "Jubilee-Red", "InHouse") ∈ searchRows "red" [(2, "Jubilee-Red", "InHouse")]
    ∧ (2, "Jubilee-Red", "InHouse") ∉ searchRows "zzz" [(2, "Jubilee-Red", "InHouse")]
    ∧ searchRows "" [(2, "Jubilee-Red", "InHouse")] = [(2, "Jubilee-Red", "InHouse")] := by
  have hdata : (strLower "Jubilee-Red").data = "jubilee-".data ++ "red".data ++ [] := by
    decide
  have hq : (strLower "red").data = "red".data := by decide
  have h100 : partFuzzScore (strLower "red").data (strLower "Jubilee-Red").data
      = 100 := by
    rw [hq, hdata]
    exact partFuzzScore_substring "red".data "jubilee-".data [] (by decide)
  have hzq : (strLower "zzz").data = "zzz".data := by decide
  have h0 : partFuzzScore (strLower "zzz").data (strLower "Jubilee-Red").data
      = 0 := by
    rw [hzq]
    exact partFuzzScore_eq_zero _ _ (by decide) (by decide) (by decide)
  refine ⟨?_, ?_, (C5_search_fuzzy "" [(2, "Jubilee-Red", "InHouse")]).1⟩
  · refine ((C5_search_fuzzy "red" [(2, "Jubilee-Red", "InHouse")]).2.2.1
      (by decide) (2, "Jubilee-Red", "InHouse")).mpr ⟨by decide, ?_⟩
    rw [h100]
    norm_num
  · intro hmem
    have hsc := (((C5_search_fuzzy "zzz" [(2, "Jubilee-Red", "InHouse")]).2.2.1
      (by decide) (2, "Jubilee-Red", "InHouse")).mp hmem).2
    rw [h0] at hsc
    norm_num at hsc

/-- C1 counterexample: the duplicate check of add_frame is against the raw
first-column cells, not against the listed frames.  On a sheet whose only
data row is malformed (blank status), the listing holds no frame at all,
yet add of that name is rejected as a duplicate and nothing is persisted —
contradicting the claim that a name not present in the collection is
always added. -/
theorem C1_add_duplicate_counterexample :
    get_sheet_data [["Frame Name", "Status"], ["X", ""]] = []
    ∧ add_frame [["Frame Name", "Status"], ["X", ""]] "X" "InHouse"
        = ((false, addDupMsg "X"), [["Frame Name", "Status"], ["X", ""]]) := by
  constructor
  · decide
  · decide

/-- C1 (amended): add_frame checks the requested name for exact equality
against the raw first cell of every stored data row (untrimmed, including
rows the listing skips as malformed).  On a match it reports the conflict
by name and leaves the grid unchanged; otherwise it appends `[name, status]`
as the new last row and, for a standard header and non-blank trimmed
inputs, the subsequent listing contains the new frame on the new last
row. -/
theorem C1_add_amended (hdr : List String) (rows : List (List String))
    (n s : String)
    (hfi : headerIdxOf hdr "frame name" = some 0)
    (hsi : headerIdxOf hdr "status" = some 1)
    (hn : strTrim n = n) (hn0 : n ≠ "") (hs : strTrim s = s) (hs0 : s ≠ "") :
    (n ∈ rawNames (hdr :: rows) →
      add_frame (hdr :: rows) n s = ((false, addDupMsg n), hdr :: rows)
      ∧ ∃ pre post, addDupMsg n = pre ++ (n ++ post))
    ∧ (n ∉ rawNames (hdr :: rows) →
      (add_frame (hdr :: rows) n s).1 = (true, addOkMsg n)
      ∧ (add_frame (hdr :: rows) n s).2 = (hdr :: rows) ++ [[n, s]]
      ∧ ((hdr :: rows).length + 1, n, s)
          ∈ get_sheet_data ((add_frame (hdr :: rows) n s).2)) := by
  constructor
  · intro hmem
    refine ⟨by rw [add_frame, if_pos hmem], "Frame " ++ quoteChar,
      quoteChar ++ " already exists.", ?_⟩
    rw [addDupMsg]
    rw [String.append_assoc, String.append_assoc, String.append_assoc]
  · intro hmem
    refine ⟨by rw [add_frame, if_neg hmem], by rw [add_frame, if_neg hmem], ?_⟩
    rw [add_frame, if_neg hmem]
    show _ ∈ get_sheet_data ((hdr :: rows) ++ [[n, s]])
    rw [List.cons_append, get_sheet_data_cons, framesAux_append]
    have hrow : rowData hdr [n, s] = some (n, s) := by
      rw [rowData, hfi, hsi]
      show (if strTrim n ≠ "" ∧ strTrim s ≠ "" then
        some (strTrim n, strTrim s) else none) = some (n, s)
      rw [if_pos ⟨by rw [hn]; exact hn0, by rw [hs]; exact hs0⟩, hn, hs]
    have : framesAux hdr (2 + rows.length) [[n, s]]
        = [(2 + rows.length, n, s)] := by
      rw [framesAux, hrow, framesAux]
    rw [this]
    refine List.mem_append_right _ ?_
    rw [show (hdr :: rows).length + 1 = 2 + rows.length by simp; omega]
    exact List.mem_cons_self _ _

theorem C1_add_amended_witness :
    add_frame [["Frame Name", "Status"], ["X", "InHouse"]] "X" "InHouse"
        = ((false, addDupMsg "X"), [["Frame Name", "Status"], ["X", "InHouse"]])
    ∧ (3, "Y", "OutHouse") ∈ get_sheet_data
        ((add_frame [["Frame Name", "Status"], ["X", "InHouse"]] "Y" "OutHouse").2) := by
  constructor
  · exact ((C1_add_amended ["Frame Name", "Status"] [["X", "InHouse"]] "X" "InHouse"
      (by decide) (by decide) (by decide) (by decide) (by decide) (by decide)).1
      (by decide)).1
  · exact ((C1_add_amended ["Frame Name", "Status"] [["X", "InHouse"]] "Y" "OutHouse"
      (by decide) (by decide) (by decide) (by decide) (by decide) (by decide)).2
      (by decide)).2.2

/-- C2 counterexample: on a sheet whose only frame has id 2, update at the
non-existent id 5 does not return NotFoundError — it mutates the grid,
writing the new name and status into row 5, which the next listing then
reports as a frame with id 5. -/
theorem C2_update_no_notfound_counterexample :
    (∀ f ∈ get_sheet_data [["Frame Name", "Status"], ["A", "InHouse"]], f.1 ≠ 5)
    ∧ update_frame [["Frame Name", "Status"], ["A", "InHouse"]] 5 "N" "InHouse"
        ≠ [["Frame Name", "Status"], ["A", "InHouse"]]
    ∧ (5, "N", "InHouse") ∈ get_sheet_data
        (update_frame [["Frame Name", "Status"], ["A", "InHouse"]] 5 "N" "InHouse") := by
  refine ⟨by decide, by decide, by decide⟩

lemma update_frame_writes (values : List (List String)) (k : Nat)
    (n s : String) (hk : 1 ≤ k) :
    (∃ r, (update_frame values k n s)[k - 1]? = some r ∧ r.take 2 = [n, s])
    ∧ ∀ j, j < values.length → j ≠ k - 1
        → (update_frame values k n s)[j]? = values[j]? := by
  rw [update_frame]
  split
  · next hle =>
    have hlt : k - 1 < values.length := by omega
    constructor
    · refine ⟨[n, s] ++ (values.getD (k - 1) []).drop 2,
        List.getElem?_set_self hlt, ?_⟩
      exact List.take_left [n, s] _
    · intro j hj hne
      exact List.getElem?_set_ne (fun hc => hne hc.symm)
  · next hgt =>
    push_neg at hgt
    constructor
    · refine ⟨[n, s], ?_, rfl⟩
      rw [List.getElem?_append_right (by simp; omega)]
      rw [show k - 1 - (values ++ List.replicate (k - values.length - 1)
        (α := List String) []).length = 0 by simp; omega]
      rfl
    · intro j hj hne
      rw [List.append_assoc,
        List.getElem?_append_left (by omega : j < values.length)]

/-- C2 (amended): update_frame performs no existence check and returns no
error: for any 1-based row index it writes the new name and status into
cells A and B of that grid row (creating the row when the index lies past
the data region) and leaves every other existing row untouched. -/
theorem C2_update_amended (values : List (List String)) (k : Nat)
    (n s : String) (hk : 1 ≤ k) :
    (∃ r, (update_frame values k n s)[k - 1]? = some r ∧ r.take 2 = [n, s])
    ∧ ∀ j, j < values.length → j ≠ k - 1
        → (update_frame values k n s)[j]? = values[j]? :=
  update_frame_writes values k n s hk

theorem C2_update_amended_witness :
    ∃ r, (update_frame [["Frame Name", "Status"], ["A", "InHouse"]] 5 "N" "InRepair")[5 - 1]?
        = some r ∧ r.take 2 = ["N", "InRepair"] :=
  (C2_update_amended [["Frame Name", "Status"], ["A", "InHouse"]] 5 "N" "InRepair"
    (by norm_num)).1

/-- C3 counterexample: deleting an id that is absent — here repeating
delete of id 2 — does not return NotFoundError.  On a two-frame sheet, the
first delete of row 2 removes frame A and frame B shifts into row 2; the
repeated delete of row 2 then silently removes frame B. -/
theorem C3_delete_counterexample :
    get_sheet_data [["Frame Name", "Status"], ["A", "InHouse"], ["B", "OutHouse"]]
        = [(2, "A", "InHouse"), (3, "B", "OutHouse")]
    ∧ get_sheet_data (delete_frame
        [["Frame Name", "Status"], ["A", "InHouse"], ["B", "OutHouse"]] 2)
        = [(2, "B", "OutHouse")]
    ∧ get_sheet_data (delete_frame (delete_frame
        [["Frame Name", "Status"], ["A", "InHouse"], ["B", "OutHouse"]] 2) 2)
        = [] := by
  refine ⟨by decide, by decide, by decide⟩

/-- C3 (amended): delete_frame removes the grid row at the given 1-based
index and never returns NotFoundError.  The listing afterwards is exactly
the previous listing with the frame of that row dropped, frames on earlier
rows unchanged, and every frame on a later row re-listed with its row
number decremented — so the deleted id is immediately taken over by the
next frame, an absent id past the data region is a silent no-op, and a
repeated delete removes the frame that shifted into that row. -/
theorem C3_delete_amended (values : List (List String)) (k : Nat) (hk : 2 ≤ k) :
    get_sheet_data (delete_frame values k)
      = (get_sheet_data values).filterMap (shiftAfterDelete k) :=
  get_sheet_data_delete values k hk

theorem C3_delete_amended_witness :
    get_sheet_data (delete_frame
        [["Frame Name", "Status"], ["A", "InHouse"], ["B", "OutHouse"]] 3)
      = (get_sheet_data
          [["Frame Name", "Status"], ["A", "InHouse"], ["B", "OutHouse"]]).filterMap
          (shiftAfterDelete 3) :=
  C3_delete_amended [["Frame Name", "Status"], ["A", "InHouse"], ["B", "OutHouse"]] 3
    (by norm_num)

/-- C6 counterexample: ids are not stable opaque handles.  Before the
delete, id 2 identifies frame A and id 3 identifies frame B; after deleting
id 2, id 2 identifies frame B (the id of a deleted frame is immediately
reused for a different frame, and the surviving frame's id changed). -/
theorem C6_id_reuse_counterexample :
    (2, "A", "InHouse") ∈ get_sheet_data
        [["Frame Name", "Status"], ["A", "InHouse"], ["B", "OutHouse"]]
    ∧ (3, "B", "OutHouse") ∈ get_sheet_data
        [["Frame Name", "Status"], ["A", "InHouse"], ["B", "OutHouse"]]
    ∧ (2, "B", "OutHouse") ∈ get_sheet_data (delete_frame
        [["Frame Name", "Status"], ["A", "InHouse"], ["B", "OutHouse"]] 2)
    ∧ ∀ f ∈ get_sheet_data (delete_frame
        [["Frame Name", "Status"], ["A", "InHouse"], ["B", "OutHouse"]] 2),
        f.1 ≠ 3 := by
  refine ⟨by decide, by decide, by decide, by decide⟩

/-- C6 (amended): ids are 1-based sheet row numbers, not opaque stable
handles: within one listing they are strictly increasing (hence unique) and
bounded by the grid length, but a delete of row `k` re-lists every frame on
a later row with its id decremented by one — so ids are reused and change
across deletions. -/
theorem C6_ids_are_row_numbers (values : List (List String)) (k : Nat)
    (f : Frame) (hk : 2 ≤ k) :
    List.Pairwise (fun a b : Frame => a.1 < b.1) (get_sheet_data values)
    ∧ (f ∈ get_sheet_data values → 2 ≤ f.1 ∧ f.1 ≤ values.length)
    ∧ (f ∈ get_sheet_data values → k < f.1
        → (f.1 - 1, f.2) ∈ get_sheet_data (delete_frame values k)) := by
  refine ⟨?_, ?_, ?_⟩
  · cases values with
    | nil => simp [get_sheet_data]
    | cons hdr rows =>
      rw [get_sheet_data_cons]
      exact framesAux_pairwise hdr rows 2
  · intro hf
    cases values with
    | nil => simp [get_sheet_data] at hf
    | cons hdr rows =>
      rw [get_sheet_data_cons] at hf
      have := mem_framesAux_bounds hdr rows 2 f hf
      simp only [List.length_cons]
      omega
  · intro hf hkf
    rw [get_sheet_data_delete values k hk]
    refine List.mem_filterMap.mpr ⟨f, hf, ?_⟩
    rw [shiftAfterDelete, if_neg (by omega), if_neg (by omega)]

theorem C6_ids_are_row_numbers_witness :
    (2, ("B", "OutHouse")) ∈ get_sheet_data (delete_frame
        [["Frame Name", "Status"], ["A", "InHouse"], ["B", "OutHouse"]] 2) :=
  (C6_ids_are_row_numbers
    [["Frame Name", "Status"], ["A", "InHouse"], ["B", "OutHouse"]] 2
    (3, "B", "OutHouse") (by norm_num)).2.2 (by decide) (by norm_num)

/-- C7 counterexample: the store boundary performs no status validation.
add_frame with the status "Bogus" — not one of the three enumeration
literals — succeeds, and the persisted frame is then listed with that
status. -/
theorem C7_status_not_validated_counterexample :
    (add_frame [["Frame Name", "Status"]] "X" "Bogus").1 = (true, addOkMsg "X")
    ∧ (2, "X", "Bogus") ∈ get_sheet_data
        ((add_frame [["Frame Name", "Status"]] "X" "Bogus").2)
    ∧ "Bogus" ∉ (["InHouse", "OutHouse", "InRepair"] : List String) := by
  refine ⟨by decide, by decide, by decide⟩

/-- C7 (amended): neither add_frame nor update_frame validates the status
value — whatever string is passed is persisted verbatim (a successful add
appends it as cell B of the new row, and update writes it into cell B of
the target row).  The three-literal restriction is imposed only by the UI
selectbox options, not at the Frame Store boundary. -/
theorem C7_status_passthrough (values : List (List String)) (k : Nat)
    (n s : String) (hk : 1 ≤ k) :
    ((add_frame values n s).1.1 = true
      → (add_frame values n s).2 = values ++ [[n, s]])
    ∧ ∃ r, (update_frame values k n s)[k - 1]? = some r
        ∧ r.take 2 = [n, s] := by
  constructor
  · intro hok
    rw [add_frame]
    split
    · next hmem =>
      rw [add_frame, if_pos hmem] at hok
      simp at hok
    · rfl
  · exact (update_frame_writes values k n s hk).1

theorem C7_status_passthrough_witness :
    ∃ r, (update_frame [["Frame Name", "Status"], ["A", "InHouse"]] 2 "A" "Bogus")[2 - 1]?
        = some r ∧ r.take 2 = ["A", "Bogus"] :=
  (C7_status_passthrough [["Frame Name", "Status"], ["A", "InHouse"]] 2 "A" "Bogus"
    (by norm_num)).2

/-- C8 counterexample: export writes one spreadsheet row per RAW stored
row, not one per frame.  On a sheet whose only data row is malformed
(blank status), the listing holds zero frames, yet the exported file
contains that row as a data row — so the contents are not "one data row
per frame". -/
theorem C8_export_counterexample :
    export_to_excel "design_frames" "20240101_120000"
        [["Frame Name", "Status"], ["X", ""]]
      = some ("exports/design_frames_20240101_120000.xlsx",
          [["Frame Name", "Status"], ["X", ""]])
    ∧ get_sheet_data [["Frame Name", "Status"], ["X", ""]] = [] := by
  refine ⟨by decide, by decide⟩

/-- C8 (amended): export writes to
`exports/{collection}_{timestamp}.xlsx` — the path contains the collection
identifier and the generation timestamp — and the contents are the sheet's
stored header row followed by one row per raw stored data row (malformed
rows included), in the sheet's stored column order, with no store-internal
id column added; when every stored row is well-formed this is exactly one
data row per listed frame. -/
theorem C8_export_amended (table now : String) (hdr : List String)
    (rows : List (List String)) :
    export_to_excel table now (hdr :: rows)
        = some ("exports/" ++ table ++ "_" ++ now ++ ".xlsx", hdr :: rows)
    ∧ (∃ a b c : String,
        "exports/" ++ table ++ "_" ++ now ++ ".xlsx" = a ++ table ++ b ++ now ++ c)
    ∧ ((∀ r ∈ rows, (rowData hdr r).isSome)
        → (get_sheet_data (hdr :: rows)).length = rows.length) := by
  refine ⟨rfl, ⟨"exports/", "_", ".xlsx", rfl⟩, ?_⟩
  intro hwf
  rw [get_sheet_data_cons]
  have hskip : (rows.filter (fun r => (rowData hdr r).isNone)).length = 0 := by
    rw [List.length_eq_zero]
    rw [List.filter_eq_nil_iff]
    intro r hr
    have := hwf r hr
    simp only [Option.isNone_iff_eq_none]
    intro hc
    rw [hc] at this
    simp at this
  have := length_framesAux_add_skipped hdr rows 2
  omega

theorem C8_export_amended_witness :
    export_to_excel "bp_frames" "20240101_120000"
        [["Frame Name", "Status"], ["A", "InHouse"]]
      = some ("exports/" ++ "bp_frames" ++ "_" ++ "20240101_120000" ++ ".xlsx",
          [["Frame Name", "Status"], ["A", "InHouse"]])
    ∧ (get_sheet_data [["Frame Name", "Status"], ["A", "InHouse"]]).length = 1 :=
  ⟨(C8_export_amended "bp_frames" "20240101_120000" ["Frame Name", "Status"]
      [["A", "InHouse"]]).1,
    (C8_export_amended "bp_frames" "20240101_120000" ["Frame Name", "Status"]
      [["A", "InHouse"]]).2.2 (by decide)⟩

/-- C9: the listing never fails on malformed stored rows: every data row is
either kept as a frame or counted as skipped (their numbers add to the row
count, and the skipped count is what the warning reports); a triple is
listed exactly when its stored row exists and has both cells present with
non-blank trimmed values; and every frame surviving the subsequent
search → status-filter → pagination pipeline is one of the listed frames,
so skipped rows appear in no search, filter or pagination result. -/
theorem C9_malformed_rows_skipped (hdr : List String)
    (rows : List (List String)) :
    (get_sheet_data (hdr :: rows)).length + get_skipped (hdr :: rows) = rows.length
    ∧ (∀ (i : Nat) (n s : String), (i, n, s) ∈ get_sheet_data (hdr :: rows)
        ↔ 2 ≤ i ∧ ∃ r, rows.get? (i - 2) = some r ∧ rowData hdr r = some (n, s))
    ∧ ∀ (q st : String) (size : Nat) (p : Int) (f : Frame),
        f ∈ paginateRows size p
            (filterByStatus st (searchRows q (get_sheet_data (hdr :: rows))))
        → f ∈ get_sheet_data (hdr :: rows) := by
  refine ⟨?_, ?_, ?_⟩
  · rw [get_sheet_data_cons, get_skipped_cons]
    exact length_framesAux_add_skipped hdr rows 2
  · intro i n s
    rw [get_sheet_data_cons]
    exact mem_framesAux_iff hdr rows 2 i n s
  · intro q st size p f hf
    exact ((((paginateRows_sublist size p _).trans
      (filterByStatus_sublist st _)).trans (searchRows_sublist q _)).mem hf)

theorem C9_malformed_rows_skipped_witness :
    (get_sheet_data [["Frame Name", "Status"], ["X", ""], ["A", "InHouse"]]).length
        + get_skipped [["Frame Name", "Status"], ["X", ""], ["A", "InHouse"]] = 2
    ∧ (3, "A", "InHouse")
        ∈ get_sheet_data [["Frame Name", "Status"], ["X", ""], ["A", "InHouse"]] := by
  constructor
  · exact (C9_malformed_rows_skipped ["Frame Name", "Status"]
      [["X", ""], ["A", "InHouse"]]).1
  · exact ((C9_malformed_rows_skipped ["Frame Name", "Status"]
      [["X", ""], ["A", "InHouse"]]).2.1 3 "A" "InHouse").mpr
      ⟨by norm_num, ["A", "InHouse"], by decide, by decide⟩

/-- C10: the "staleness hash" is NOT a function of the fetched sheet
contents — the code hashes `str(time.time())`, so the returned hash is the
same for any two sheets fetched at the same instant even when their data
(and hence the listed rows) differ, and conversely depends only on the
clock.  The hash comparison therefore cannot detect "did the sheet
change". -/
theorem C10_hash_ignores_sheet_data (md5hex : String → String) (now : String) :
    (get_sheet_data_and_hash md5hex now
        [["Frame Name", "Status"], ["A", "InHouse"]]).1
      ≠ (get_sheet_data_and_hash md5hex now
        [["Frame Name", "Status"], ["B", "OutHouse"]]).1
    ∧ (get_sheet_data_and_hash md5hex now
        [["Frame Name", "Status"], ["A", "InHouse"]]).2
      = (get_sheet_data_and_hash md5hex now
        [["Frame Name", "Status"], ["B", "OutHouse"]]).2
    ∧ ∀ (h1 r1 h2 r2 : List String) (t1 t2 : List (List String)),
        (get_sheet_data_and_hash md5hex now (h1 :: r1 :: t1)).2
          = (get_sheet_data_and_hash md5hex now (h2 :: r2 :: t2)).2 := by
  refine ⟨?_, rfl, fun h1 r1 h2 r2 t1 t2 => rfl⟩
  have hA : (get_sheet_data_and_hash md5hex now
      [["Frame Name", "Status"], ["A", "InHouse"]]).1 = [(2, "A", "InHouse")] := rfl
  have hB : (get_sheet_data_and_hash md5hex now
      [["Frame Name", "Status"], ["B", "OutHouse"]]).1 = [(2, "B", "OutHouse")] := rfl
  intro hc
  rw [hA, hB] at hc
  exact absurd hc (by decide)

end FrameTracker

